import Mathlib

/-!
Verification of the miniDraw native canvas engine (`src/engine/src/engine.cpp`,
`src/engine/include/engine.hpp`).

The engine is a single-threaded in-memory state machine: an ordered list of
rectangles, an ordered list of strokes, an id → position index for active
strokes, and a pointer-id → presence map.  The four entry points (`resize`,
`execute`, `pointerEvent`, `tick`) are modelled as pure functions from an
`Engine` state to a new state (or, for `tick`, to a `Snapshot`).

Numeric conventions of the embedding:
* The C++ code stores `float` coordinates but never performs arithmetic on
  them — every coordinate is read from the command/event and echoed back by
  `tick` unchanged — so coordinates are embedded as `Int` placeholders.
* `int` values that the code actually computes with (`resize` clamping,
  `colorForPointer`'s `abs`/`%`) are embedded as `Int` with explicit 32-bit
  wraparound where overflow matters.
* `std::unordered_map` is embedded as an association list with unique keys:
  `operator[]` assignment removes any old entry for the key and prepends the
  new one, `erase` filters the key out; lookup semantics coincide with the
  C++ map's.  Iteration order of the presence map is unspecified in the C++
  standard; the embedding iterates in insertion order.
-/

namespace MiniDraw

/-- Decimal digit characters, as produced by `std::ostringstream` /
`std::to_string`.  Same character table as the C locale. -/
def digitChar (d : Nat) : Char :=
  if d = 0 then '0' else if d = 1 then '1' else if d = 2 then '2'
  else if d = 3 then '3' else if d = 4 then '4' else if d = 5 then '5'
  else if d = 6 then '6' else if d = 7 then '7' else if d = 8 then '8'
  else if d = 9 then '9' else '*'

/-- Fuel-driven decimal rendering of a positive natural: renders `n / 10`
then appends the digit `n % 10`.  `natStrAux fuel n` is the decimal string of
`n` whenever `n ≤ fuel` (the digit count of `n` is at most `n`). -/
def natStrAux : Nat → Nat → String
  | 0, _ => ""
  | fuel + 1, n =>
    if n = 0 then ""
    else natStrAux fuel (n / 10) ++ String.singleton (digitChar (n % 10))

/-- Decimal rendering of a natural number, as `std::ostringstream << n`
produces it. -/
def natStr (n : Nat) : String :=
  if n = 0 then "0" else natStrAux n n

/-- Decimal rendering of an integer, as `std::to_string(int)` produces it. -/
def intStr (i : Int) : String :=
  if i < 0 then "-" ++ natStr i.natAbs else natStr i.toNat

/-- `makeRectangleId` from engine.cpp: `"rect-" << index + 1`. -/
def makeRectangleId (index : Nat) : String := "rect-" ++ natStr (index + 1)

/-- `makeRectangleName` from engine.cpp: `"Rectangle " << index + 1`. -/
def makeRectangleName (index : Nat) : String := "Rectangle " ++ natStr (index + 1)

/-- `makeStrokeName` from engine.cpp: `"Trace " << index + 1`. -/
def makeStrokeName (index : Nat) : String := "Trace " ++ natStr (index + 1)

/-- The fixed six-color palette of `colorForPointer`. -/
def palette : List String :=
  ["#22d3ee", "#f97316", "#a855f7", "#facc15", "#34d399", "#ef4444"]

/-- Wrap an integer into the two's-complement 32-bit range `[-2^31, 2^31)`. -/
def wrap32 (n : Int) : Int := (n + 2 ^ 31) % 2 ^ 32 - 2 ^ 31

/-- `std::abs` on a 32-bit `int`, with two's-complement wraparound semantics
for the negation (so `absWrap32 (-2^31) = -2^31`). -/
def absWrap32 (p : Int) : Int := if p < 0 then wrap32 (-p) else p

/-- The palette index computed by `colorForPointer`:
`std::abs(pointer_id) % static_cast<int>(palette.size())`.  C++ `%` on `int`
truncates toward zero, which is `Int.tmod`. -/
def normalized32 (p : Int) : Int := Int.tmod (absWrap32 p) 6

/-- `colorForPointer` from engine.cpp: `palette[normalized]`.  The embedding
totalises the array access with `getD`; `normalized32 p` is nonnegative and
in bounds for every `p` except `-2^31` (see the palette-index theorems). -/
def colorForPointer (p : Int) : String :=
  palette.getD (normalized32 p).toNat ""

/-- `Rectangle` from engine.hpp. -/
structure Rectangle where
  id : String
  name : String
  x : Int
  y : Int
  width : Int
  height : Int
  color : String
deriving DecidableEq

/-- `Presence` from engine.hpp. -/
structure Presence where
  id : String
  color : String
  x : Int
  y : Int
deriving DecidableEq

/-- `StrokePoint` from engine.hpp. -/
structure StrokePoint where
  x : Int
  y : Int
deriving DecidableEq

/-- `Stroke` from engine.hpp. -/
structure Stroke where
  id : String
  name : String
  color : String
  size : Int
  points : List StrokePoint
deriving DecidableEq

/-- Association-list lookup with decidable key equality (first match);
models `std::unordered_map::find`. -/
def lookupKey {α β : Type} [DecidableEq α] (k : α) : List (α × β) → Option β
  | [] => none
  | q :: l => if q.1 = k then some q.2 else lookupKey k l

/-- Drop every entry with the given key; models `std::unordered_map::erase`. -/
def eraseKey {α β : Type} [DecidableEq α] (k : α) (l : List (α × β)) :
    List (α × β) :=
  l.filter (fun q => q.1 ≠ k)

/-- Insert-or-assign; models `std::unordered_map::operator[] = v`. -/
def setKey {α β : Type} [DecidableEq α] (k : α) (v : β) (l : List (α × β)) :
    List (α × β) :=
  (k, v) :: eraseKey k l

/-- Replace the element at position `i` (no-op when out of range); models an
in-place write through `&strokes_[index]`. -/
def listModify {α : Type} : List α → Nat → (α → α) → List α
  | [], _, _ => []
  | a :: l, 0, f => f a :: l
  | a :: l, i + 1, f => a :: listModify l i f

/-- The engine state: `width_`, `height_`, `rectangles_`, `strokes_`,
`strokeIndex_`, `presences_` from engine.hpp. -/
structure Engine where
  width : Int
  height : Int
  rectangles : List Rectangle
  strokes : List Stroke
  strokeIndex : List (String × Nat)
  presences : List (Int × Presence)
deriving DecidableEq

/-- The `Engine()` constructor: zero dimensions, empty collections. -/
def Engine.init : Engine := ⟨0, 0, [], [], [], []⟩

/-- `Engine::resize`: store the dimensions, then clamp each negative one
to 0. -/
def Engine.resize (e : Engine) (width height : Int) : Engine :=
  let e1 := { e with width := width, height := height }
  let e2 := if e1.width < 0 then { e1 with width := 0 } else e1
  if e2.height < 0 then { e2 with height := 0 } else e2

/-- `createEngine`: construct an engine and resize it. -/
def createEngine (width height : Int) : Engine :=
  Engine.init.resize width height

/-- `Engine::makeRectangle`: id and name derive from the rectangle count at
the time of the call. -/
def Engine.makeRectangle (e : Engine) (x y width height : Int)
    (color : String) : Rectangle :=
  let index := e.rectangles.length
  ⟨makeRectangleId index, makeRectangleName index, x, y, width, height, color⟩

/-- `Engine::makeStroke`: a stroke seeded with the single point `{x, y}`. -/
def Engine.makeStroke (id name : String) (x y size : Int) (color : String) :
    Stroke :=
  ⟨id, name, color, size, [⟨x, y⟩]⟩

/-- `Engine::findStroke`: index lookup followed by the defensive bounds
check; returns the position of the active stroke. -/
def Engine.findStroke (e : Engine) (id : String) : Option Nat :=
  match lookupKey id e.strokeIndex with
  | none => none
  | some index => if index ≥ e.strokes.length then none else some index

/-- The commands recognised by `Engine::execute`.  The dispatch on the
`type` string field is modelled by the constructors; `unknownCommand` covers
every `type` other than the four recognised ones. -/
inductive Command where
  | createRectangle (x y width height : Int) (color : String)
  | startStroke (id : String) (x y size : Int) (color : String)
  | updateStroke (id : String) (x y : Int)
  | finishStroke (id : String)
  | unknownCommand (kind : String)
deriving DecidableEq

/-- `Engine::execute` from engine.cpp. -/
def Engine.execute (e : Engine) (c : Command) : Engine :=
  match c with
  | .createRectangle x y width height color =>
    { e with rectangles := e.rectangles ++ [e.makeRectangle x y width height color] }
  | .startStroke id x y size color =>
    let name := makeStrokeName e.strokes.length
    let stroke := Engine.makeStroke id name x y size color
    { e with
      strokeIndex := setKey stroke.id e.strokes.length e.strokeIndex,
      strokes := e.strokes ++ [stroke] }
  | .updateStroke id x y =>
    match e.findStroke id with
    | some index =>
      { e with
        strokes := listModify e.strokes index
          (fun s => { s with points := s.points ++ [⟨x, y⟩] }) }
    | none => e
  | .finishStroke id => { e with strokeIndex := eraseKey id e.strokeIndex }
  | .unknownCommand _ => e

/-- `Engine::updatePresence`: create on first sight (id string and palette
color derived from the pointer id), otherwise update `x`/`y` in place. -/
def Engine.updatePresence (e : Engine) (pointerId x y : Int) : Engine :=
  match lookupKey pointerId e.presences with
  | none =>
    { e with
      presences := e.presences ++
        [(pointerId, ⟨intStr pointerId, colorForPointer pointerId, x, y⟩)] }
  | some _ =>
    { e with
      presences := e.presences.map
        (fun q => if q.1 = pointerId then (q.1, { q.2 with x := x, y := y }) else q) }

/-- The events recognised by `Engine::pointerEvent`; `otherEvent` covers
every `type` other than `"pointerMove"`. -/
inductive PEvent where
  | pointerMove (pointerId x y : Int)
  | otherEvent (kind : String)
deriving DecidableEq

/-- `Engine::pointerEvent` from engine.cpp. -/
def Engine.pointerEvent (e : Engine) (ev : PEvent) : Engine :=
  match ev with
  | .pointerMove pointerId x y => e.updatePresence pointerId x y
  | .otherEvent _ => e

/-- One entry of the snapshot's `shapes` array, tagged by its `kind`
field. -/
inductive Shape where
  | rectangle (id name : String) (x y width height : Int) (color : String)
  | stroke (id name color : String) (size : Int) (points : List StrokePoint)
deriving DecidableEq

/-- The `kind` string `tick` writes on a shape. -/
def Shape.kind : Shape → String
  | .rectangle .. => "rectangle"
  | .stroke .. => "stroke"

/-- The shape object `tick` emits for a rectangle. -/
def rectangleShape (r : Rectangle) : Shape :=
  .rectangle r.id r.name r.x r.y r.width r.height r.color

/-- The shape object `tick` emits for a stroke (with its full point list). -/
def strokeShape (s : Stroke) : Shape :=
  .stroke s.id s.name s.color s.size s.points

/-- The state bundle returned by `Engine::tick`. -/
structure Snapshot where
  documentId : String
  documentName : String
  shapes : List Shape
  presences : List Presence
deriving DecidableEq

/-- `Engine::tick` from engine.cpp: all rectangles, then all strokes, each in
insertion order, plus every presence. -/
def Engine.tick (e : Engine) : Snapshot :=
  { documentId := "doc-native"
    documentName := "Composition native"
    shapes := e.rectangles.map rectangleShape ++ e.strokes.map strokeShape
    presences := e.presences.map (fun q => q.2) }

/-- One call into the engine's public interface. -/
inductive Call where
  | resizeCall (width height : Int)
  | command (c : Command)
  | event (ev : PEvent)
  | tickCall
deriving DecidableEq

/-- The state transition of one call.  `tick` is `const` in the C++ class:
it cannot touch the state. -/
def step (e : Engine) (c : Call) : Engine :=
  match c with
  | .resizeCall w h => e.resize w h
  | .command c => e.execute c
  | .event ev => e.pointerEvent ev
  | .tickCall => e

/-- The engine state after a sequence of calls. -/
def runState (e : Engine) (calls : List Call) : Engine :=
  calls.foldl step e

/-- Run a sequence of calls, collecting the snapshot each `tick` call
returns. -/
def run (e : Engine) : List Call → Engine × List Snapshot
  | [] => (e, [])
  | c :: calls =>
    let r := run (step e c) calls
    match c with
    | .tickCall => (r.1, e.tick :: r.2)
    | _ => r

/-- The ids of the `startStroke` commands in a call sequence, in order. -/
def strokeIds : List Call → List String
  | [] => []
  | .command (.startStroke id _ _ _ _) :: calls => id :: strokeIds calls
  | _ :: calls => strokeIds calls

/-- The number of `createRectangle` commands in a call sequence. -/
def rectangleCount : List Call → Nat
  | [] => 0
  | .command (.createRectangle _ _ _ _ _) :: calls => rectangleCount calls + 1
  | _ :: calls => rectangleCount calls

/-- Fold a list of points into successive `updateStroke` commands on one
id. -/
def updates (e : Engine) (id : String) (ps : List StrokePoint) : Engine :=
  ps.foldl (fun a p => a.execute (.updateStroke id p.x p.y)) e

/-! ### Decimal rendering: the digit strings of distinct naturals differ -/

theorem data_singleton (c : Char) : (String.singleton c).data = [c] := rfl

theorem digitChar_inj : ∀ a < 10, ∀ b < 10, digitChar a = digitChar b → a = b := by
  decide

theorem natStrAux_zero (fuel : Nat) : natStrAux fuel 0 = "" := by
  cases fuel <;> rfl

theorem natStrAux_ne_empty {fuel n : Nat} (hn : 0 < n) (hf : n ≤ fuel) :
    natStrAux fuel n ≠ "" := by
  cases fuel with
  | zero => omega
  | succ f =>
    intro h
    rw [natStrAux, if_neg (by omega)] at h
    have hd := congrArg String.data h
    simp [data_singleton] at hd

theorem natStrAux_inj : ∀ (f1 : Nat), ∀ {n1 f2 n2 : Nat}, 0 < n1 → 0 < n2 →
    n1 ≤ f1 → n2 ≤ f2 → natStrAux f1 n1 = natStrAux f2 n2 → n1 = n2 := by
  intro f1
  induction f1 with
  | zero => intro n1 f2 n2 h1 _ hf1 _ _; omega
  | succ f ih =>
    intro n1 f2 n2 h1 h2 hf1 hf2 heq
    cases f2 with
    | zero => omega
    | succ g =>
      rw [natStrAux, if_neg (by omega)] at heq
      rw [natStrAux, if_neg (by omega)] at heq
      have hdata := congrArg String.data heq
      simp only [String.data_append, data_singleton] at hdata
      have hparts := List.append_inj' hdata (by simp)
      have hchar : digitChar (n1 % 10) = digitChar (n2 % 10) := by
        have h2c := hparts.2
        simpa using h2c
      have hmod : n1 % 10 = n2 % 10 :=
        digitChar_inj _ (Nat.mod_lt _ (by omega)) _ (Nat.mod_lt _ (by omega)) hchar
      have hstr : natStrAux f (n1 / 10) = natStrAux g (n2 / 10) :=
        String.ext hparts.1
      by_cases hq1 : n1 / 10 = 0
      · by_cases hq2 : n2 / 10 = 0
        · omega
        · exfalso
          rw [hq1, natStrAux_zero] at hstr
          exact natStrAux_ne_empty (by omega) (by omega) hstr.symm
      · by_cases hq2 : n2 / 10 = 0
        · exfalso
          rw [hq2, natStrAux_zero] at hstr
          exact natStrAux_ne_empty (n := n1 / 10) (by omega) (by omega) hstr
        · have hdiv : n1 / 10 = n2 / 10 :=
            ih (by omega) (by omega) (by omega) (by omega) hstr
          omega

theorem natStr_succ_inj {m n : Nat} (h : natStr (m + 1) = natStr (n + 1)) :
    m = n := by
  rw [natStr, if_neg (Nat.succ_ne_zero m), natStr, if_neg (Nat.succ_ne_zero n)] at h
  have := natStrAux_inj (m + 1) (Nat.succ_pos m) (Nat.succ_pos n)
    (Nat.le_refl _) (Nat.le_refl _) h
  omega

theorem makeRectangleId_inj : Function.Injective makeRectangleId := by
  intro i j h
  rw [makeRectangleId, makeRectangleId] at h
  have hdata := congrArg String.data h
  simp only [String.data_append] at hdata
  exact natStr_succ_inj (String.ext (List.append_cancel_left hdata))

/-! ### Association-list lemmas -/

theorem eraseKey_cons {α β : Type} [DecidableEq α] (b : α) (q : α × β)
    (l : List (α × β)) :
    eraseKey b (q :: l) = if q.1 = b then eraseKey b l else q :: eraseKey b l := by
  by_cases h : q.1 = b <;> simp [eraseKey, List.filter_cons, h]

theorem lookupKey_eraseKey_self {α β : Type} [DecidableEq α] (a : α)
    (l : List (α × β)) : lookupKey a (eraseKey a l) = none := by
  induction l with
  | nil => rfl
  | cons q l ih =>
    rw [eraseKey_cons]
    by_cases h : q.1 = a
    · rw [if_pos h]; exact ih
    · rw [if_neg h]
      simp only [lookupKey, if_neg h]
      exact ih

theorem lookupKey_eraseKey_ne {α β : Type} [DecidableEq α] {a b : α}
    (hab : a ≠ b) (l : List (α × β)) :
    lookupKey a (eraseKey b l) = lookupKey a l := by
  induction l with
  | nil => rfl
  | cons q l ih =>
    rw [eraseKey_cons]
    by_cases h : q.1 = b
    · rw [if_pos h]
      have hqa : ¬ q.1 = a := fun hq => hab ((hq.symm.trans h).symm ▸ rfl)
      simp only [lookupKey, if_neg hqa]
      exact ih
    · rw [if_neg h]
      by_cases hqa : q.1 = a
      · simp only [lookupKey, if_pos hqa]
      · simp only [lookupKey, if_neg hqa]
        exact ih

theorem lookupKey_setKey_self {α β : Type} [DecidableEq α] (a : α) (v : β)
    (l : List (α × β)) : lookupKey a (setKey a v l) = some v := by
  simp [setKey, lookupKey]

theorem lookupKey_setKey_ne {α β : Type} [DecidableEq α] {a b : α} (v : β)
    (hab : a ≠ b) (l : List (α × β)) :
    lookupKey a (setKey b v l) = lookupKey a l := by
  have hba : ¬ b = a := fun hh => hab hh.symm
  simp only [setKey, lookupKey, if_neg hba]
  exact lookupKey_eraseKey_ne hab l

theorem lookupKey_eq_none_iff {α β : Type} [DecidableEq α] (a : α)
    (l : List (α × β)) : lookupKey a l = none ↔ ∀ q ∈ l, q.1 ≠ a := by
  induction l with
  | nil => simp [lookupKey]
  | cons q l ih =>
    by_cases h : q.1 = a
    · simp [lookupKey, h]
    · simp [lookupKey, h, ih]

theorem eraseKey_of_lookup_none {α β : Type} [DecidableEq α] {a : α}
    {l : List (α × β)} (h : lookupKey a l = none) : eraseKey a l = l := by
  rw [eraseKey, List.filter_eq_self]
  intro q hq
  simpa using (lookupKey_eq_none_iff a l).mp h q hq

/-! ### `listModify` lemmas -/

theorem length_listModify {α : Type} (l : List α) (i : Nat) (f : α → α) :
    (listModify l i f).length = l.length := by
  induction l generalizing i with
  | nil => rfl
  | cons a l ih =>
    cases i with
    | zero => rfl
    | succ j => simp [listModify, ih]

theorem getElem?_listModify {α : Type} (l : List α) (i j : Nat) (f : α → α) :
    (listModify l i f)[j]? = if i = j then (l[j]?).map f else l[j]? := by
  induction l generalizing i j with
  | nil => simp [listModify]
  | cons a l ih =>
    cases i with
    | zero =>
      cases j with
      | zero => simp [listModify]
      | succ j2 => simp [listModify]
    | succ i2 =>
      cases j with
      | zero => simp [listModify]
      | succ j2 => simpa [listModify] using ih i2 j2

theorem map_listModify_of_preserved {α β : Type} (l : List α) (i : Nat)
    (f : α → α) (g : α → β) (h : ∀ a, g (f a) = g a) :
    (listModify l i f).map g = l.map g := by
  induction l generalizing i with
  | nil => rfl
  | cons a l ih =>
    cases i with
    | zero => simp [listModify, h]
    | succ j => simp [listModify, ih]

/-! ### Field-preservation lemmas for the engine operations -/

theorem resize_width (e : Engine) (w h : Int) :
    (e.resize w h).width = if w < 0 then 0 else w := by
  by_cases hw : w < 0 <;> by_cases hh : h < 0 <;> simp [Engine.resize, hw, hh]

theorem resize_height (e : Engine) (w h : Int) :
    (e.resize w h).height = if h < 0 then 0 else h := by
  by_cases hw : w < 0 <;> by_cases hh : h < 0 <;> simp [Engine.resize, hw, hh]

theorem resize_rectangles (e : Engine) (w h : Int) :
    (e.resize w h).rectangles = e.rectangles := by
  by_cases hw : w < 0 <;> by_cases hh : h < 0 <;> simp [Engine.resize, hw, hh]

theorem resize_strokes (e : Engine) (w h : Int) :
    (e.resize w h).strokes = e.strokes := by
  by_cases hw : w < 0 <;> by_cases hh : h < 0 <;> simp [Engine.resize, hw, hh]

theorem resize_strokeIndex (e : Engine) (w h : Int) :
    (e.resize w h).strokeIndex = e.strokeIndex := by
  by_cases hw : w < 0 <;> by_cases hh : h < 0 <;> simp [Engine.resize, hw, hh]

theorem resize_presences (e : Engine) (w h : Int) :
    (e.resize w h).presences = e.presences := by
  by_cases hw : w < 0 <;> by_cases hh : h < 0 <;> simp [Engine.resize, hw, hh]

theorem execute_presences (e : Engine) (c : Command) :
    (e.execute c).presences = e.presences := by
  cases c with
  | updateStroke id x y =>
    cases hfs : e.findStroke id <;> simp [Engine.execute, hfs]
  | createRectangle x y w h color => rfl
  | startStroke id x y size color => rfl
  | finishStroke id => rfl
  | unknownCommand k => rfl

theorem updatePresence_rectangles (e : Engine) (pid x y : Int) :
    (e.updatePresence pid x y).rectangles = e.rectangles := by
  cases hl : lookupKey pid e.presences <;> simp [Engine.updatePresence, hl]

theorem updatePresence_strokes (e : Engine) (pid x y : Int) :
    (e.updatePresence pid x y).strokes = e.strokes := by
  cases hl : lookupKey pid e.presences <;> simp [Engine.updatePresence, hl]

theorem updatePresence_strokeIndex (e : Engine) (pid x y : Int) :
    (e.updatePresence pid x y).strokeIndex = e.strokeIndex := by
  cases hl : lookupKey pid e.presences <;> simp [Engine.updatePresence, hl]

theorem pointerEvent_rectangles (e : Engine) (ev : PEvent) :
    (e.pointerEvent ev).rectangles = e.rectangles := by
  cases ev with
  | pointerMove pid x y => exact updatePresence_rectangles e pid x y
  | otherEvent k => rfl

theorem pointerEvent_strokes (e : Engine) (ev : PEvent) :
    (e.pointerEvent ev).strokes = e.strokes := by
  cases ev with
  | pointerMove pid x y => exact updatePresence_strokes e pid x y
  | otherEvent k => rfl

theorem pointerEvent_strokeIndex (e : Engine) (ev : PEvent) :
    (e.pointerEvent ev).strokeIndex = e.strokeIndex := by
  cases ev with
  | pointerMove pid x y => exact updatePresence_strokeIndex e pid x y
  | otherEvent k => rfl

theorem execute_rectangles_of_not_create (e : Engine) (c : Command)
    (h : ∀ x y w ht color, c ≠ .createRectangle x y w ht color) :
    (e.execute c).rectangles = e.rectangles := by
  cases c with
  | createRectangle x y w ht color => exact absurd rfl (h x y w ht color)
  | updateStroke id x y =>
    cases hfs : e.findStroke id <;> simp [Engine.execute, hfs]
  | startStroke id x y size color => rfl
  | finishStroke id => rfl
  | unknownCommand k => rfl

/-! ### Reachable-state invariants -/

/-- Every rectangle's id and name derive from its position. -/
def RectOk (e : Engine) : Prop :=
  ∀ i r, e.rectangles[i]? = some r →
    r.id = makeRectangleId i ∧ r.name = makeRectangleName i

/-- Every active-stroke index entry designates an in-bounds stroke bearing
that id. -/
def IndexOk (e : Engine) : Prop :=
  ∀ id k, lookupKey id e.strokeIndex = some k →
    ∃ s, e.strokes[k]? = some s ∧ s.id = id

/-- The presence map holds at most one entry per pointer id. -/
def PresOk (e : Engine) : Prop :=
  ((e.presences.map (fun q => q.1)).Nodup)

/-- The conjunction of the reachable-state invariants. -/
def Inv (e : Engine) : Prop := RectOk e ∧ IndexOk e ∧ PresOk e

theorem inv_init : Inv Engine.init := by
  refine ⟨?_, ?_, ?_⟩
  · intro i r hr; simp [Engine.init] at hr
  · intro id k hk; simp [Engine.init, lookupKey] at hk
  · simp [Engine.init, PresOk]

theorem rectOk_step {e : Engine} (c : Call) (h : RectOk e) : RectOk (step e c) := by
  cases c with
  | resizeCall w ht =>
    intro i r hr
    rw [step, resize_rectangles] at hr
    exact h i r hr
  | tickCall => exact h
  | event ev =>
    intro i r hr
    rw [step, pointerEvent_rectangles] at hr
    exact h i r hr
  | command c =>
    cases c with
    | createRectangle x y w ht color =>
      intro i r hr
      simp only [step, Engine.execute] at hr
      by_cases hi : i < e.rectangles.length
      · rw [List.getElem?_append_left hi] at hr
        exact h i r hr
      · rw [List.getElem?_append_right (by omega)] at hr
        rcases Nat.eq_or_lt_of_le (Nat.le_of_not_lt hi) with heq | hlt
        · rw [← heq, Nat.sub_self] at hr
          simp only [List.getElem?_cons_zero, Option.some.injEq] at hr
          subst hr
          constructor <;> simp [Engine.makeRectangle, heq]
        · have : i - e.rectangles.length ≥ 1 := by omega
          rw [List.getElem?_eq_none (by simp; omega)] at hr
          exact absurd hr (by simp)
    | updateStroke id x y =>
      intro i r hr
      rw [step, execute_rectangles_of_not_create e _ (by intro _ _ _ _ _ hc; exact Command.noConfusion hc)] at hr
      exact h i r hr
    | startStroke id x y size color =>
      intro i r hr
      exact h i r hr
    | finishStroke id =>
      intro i r hr
      exact h i r hr
    | unknownCommand k =>
      intro i r hr
      exact h i r hr

theorem indexOk_step {e : Engine} (c : Call) (h : IndexOk e) : IndexOk (step e c) := by
  cases c with
  | resizeCall w ht =>
    intro id k hk
    rw [step, resize_strokeIndex] at hk
    rw [step, resize_strokes]
    exact h id k hk
  | tickCall => exact h
  | event ev =>
    intro id k hk
    rw [step, pointerEvent_strokeIndex] at hk
    rw [step, pointerEvent_strokes]
    exact h id k hk
  | command c =>
    cases c with
    | createRectangle x y w ht color => exact fun id k hk => h id k hk
    | startStroke id0 x y size color =>
      intro id k hk
      simp only [step, Engine.execute, Engine.makeStroke] at hk ⊢
      by_cases hid : id = id0
      · subst hid
        rw [lookupKey_setKey_self] at hk
        obtain rfl : e.strokes.length = k := Option.some.inj hk
        exact ⟨_, by rw [List.getElem?_append_right (Nat.le_refl _), Nat.sub_self]; rfl, rfl⟩
      · rw [lookupKey_setKey_ne _ hid] at hk
        obtain ⟨s, hs, hsid⟩ := h id k hk
        obtain ⟨hk2, -⟩ := List.getElem?_eq_some_iff.mp hs
        exact ⟨s, by rw [List.getElem?_append_left hk2]; exact hs, hsid⟩
    | updateStroke id0 x y =>
      intro id k hk
      cases hfs : e.findStroke id0 with
      | none =>
        simp only [step, Engine.execute, hfs] at hk ⊢
        exact h id k hk
      | some k0 =>
        simp only [step, Engine.execute, hfs] at hk ⊢
        obtain ⟨s, hs, hsid⟩ := h id k hk
        rw [getElem?_listModify]
        by_cases hkk : k0 = k
        · subst hkk
          refine ⟨{ s with points := s.points ++ [⟨x, y⟩] }, ?_, hsid⟩
          rw [if_pos rfl, hs]
          rfl
        · exact ⟨s, by rw [if_neg hkk]; exact hs, hsid⟩
    | finishStroke id0 =>
      intro id k hk
      simp only [step, Engine.execute] at hk ⊢
      by_cases hid : id = id0
      · subst hid
        rw [lookupKey_eraseKey_self] at hk
        exact absurd hk (by simp)
      · rw [lookupKey_eraseKey_ne hid] at hk
        exact h id k hk
    | unknownCommand kd => exact fun id k hk => h id k hk

theorem map_fst_presence_update (l : List (Int × Presence)) (pid x y : Int) :
    (l.map (fun q => if q.1 = pid then (q.1, { q.2 with x := x, y := y }) else q)).map
        (fun q => q.1) =
      l.map (fun q => q.1) := by
  rw [List.map_map]
  apply List.map_congr_left
  intro q _
  by_cases hq : q.1 = pid <;> simp [hq]

theorem presOk_step {e : Engine} (c : Call) (h : PresOk e) : PresOk (step e c) := by
  cases c with
  | resizeCall w ht =>
    rw [PresOk, step, resize_presences]
    exact h
  | tickCall => exact h
  | command c =>
    rw [PresOk, step, execute_presences]
    exact h
  | event ev =>
    cases ev with
    | otherEvent k => exact h
    | pointerMove pid x y =>
      cases hl : lookupKey pid e.presences with
      | none =>
        rw [PresOk, step, Engine.pointerEvent, Engine.updatePresence, hl]
        simp only [List.map_append, List.map_cons, List.map_nil, List.nodup_append]
        refine ⟨h, by simp, ?_⟩
        intro a ha hb
        simp only [List.mem_singleton] at hb
        subst hb
        obtain ⟨q, hq, hq1⟩ := List.mem_map.mp ha
        exact (lookupKey_eq_none_iff a e.presences).mp hl q hq hq1
      | some p =>
        rw [PresOk, step, Engine.pointerEvent, Engine.updatePresence, hl]
        simpa only [map_fst_presence_update] using h

theorem inv_step {e : Engine} (c : Call) (h : Inv e) : Inv (step e c) :=
  ⟨rectOk_step c h.1, indexOk_step c h.2.1, presOk_step c h.2.2⟩

theorem inv_runState : ∀ (calls : List Call) (e : Engine), Inv e →
    Inv (runState e calls) := by
  intro calls
  induction calls with
  | nil => exact fun e h => h
  | cons c calls ih =>
    intro e h
    exact ih (step e c) (inv_step c h)

theorem inv_reachable (calls : List Call) : Inv (runState Engine.init calls) :=
  inv_runState calls Engine.init inv_init

/-! ### `run` / `runState` composition -/

theorem runState_nil (e : Engine) : runState e [] = e := rfl

theorem runState_cons (e : Engine) (c : Call) (calls : List Call) :
    runState e (c :: calls) = runState (step e c) calls := rfl

theorem run_nil (e : Engine) : run e [] = (e, []) := rfl

theorem run_fst (e : Engine) (calls : List Call) :
    (run e calls).1 = runState e calls := by
  induction calls generalizing e with
  | nil => rfl
  | cons c calls ih =>
    rw [runState_cons, ← ih (step e c)]
    cases c <;> rfl

theorem run_append (e : Engine) (xs ys : List Call) :
    run e (xs ++ ys) =
      ((run (runState e xs) ys).1, (run e xs).2 ++ (run (runState e xs) ys).2) := by
  induction xs generalizing e with
  | nil => simp [runState_nil, run_nil]
  | cons c xs ih =>
    rw [List.cons_append, runState_cons]
    cases c with
    | tickCall =>
      show ((run (step e .tickCall) (xs ++ ys)).1,
        e.tick :: (run (step e .tickCall) (xs ++ ys)).2) = _
      rw [ih (step e .tickCall)]
      rfl
    | resizeCall w h =>
      show run (step e (.resizeCall w h)) (xs ++ ys) = _
      rw [ih (step e (.resizeCall w h))]
      rfl
    | command c =>
      show run (step e (.command c)) (xs ++ ys) = _
      rw [ih (step e (.command c))]
      rfl
    | event ev =>
      show run (step e (.event ev)) (xs ++ ys) = _
      rw [ih (step e (.event ev))]
      rfl

/-! ### Stroke-id and rectangle-count accounting -/

theorem strokeIds_cons (c : Call) (calls : List Call) :
    strokeIds (c :: calls) =
      (match c with
        | .command (.startStroke id _ _ _ _) => [id]
        | _ => []) ++ strokeIds calls := by
  cases c with
  | command cmd => cases cmd <;> rfl
  | resizeCall w h => rfl
  | event ev => rfl
  | tickCall => rfl

theorem step_strokes_map_id (e : Engine) (c : Call) :
    (step e c).strokes.map (fun s => s.id) =
      e.strokes.map (fun s => s.id) ++
        (match c with
          | .command (.startStroke id _ _ _ _) => [id]
          | _ => []) := by
  cases c with
  | resizeCall w h => simp [step, resize_strokes]
  | tickCall => simp [step]
  | event ev => simp [step, pointerEvent_strokes]
  | command cmd =>
    cases cmd with
    | createRectangle x y w h color => simp [step, Engine.execute]
    | startStroke id x y size color => simp [step, Engine.execute, Engine.makeStroke]
    | updateStroke id x y =>
      cases hfs : e.findStroke id with
      | none => simp [step, Engine.execute, hfs]
      | some k =>
        simp only [step, Engine.execute, hfs, List.append_nil]
        exact map_listModify_of_preserved _ _ _ _ (fun a => rfl)
    | finishStroke id => simp [step, Engine.execute]
    | unknownCommand k => simp [step, Engine.execute]

theorem runState_strokes_map_id (calls : List Call) :
    ∀ e : Engine, (runState e calls).strokes.map (fun s => s.id) =
      e.strokes.map (fun s => s.id) ++ strokeIds calls := by
  induction calls with
  | nil => intro e; simp [runState_nil, strokeIds]
  | cons c calls ih =>
    intro e
    rw [runState_cons, ih (step e c), step_strokes_map_id, strokeIds_cons,
      List.append_assoc]

theorem step_rectangles_length (e : Engine) (c : Call) :
    (step e c).rectangles.length =
      e.rectangles.length +
        (match c with
          | .command (.createRectangle _ _ _ _ _) => 1
          | _ => 0) := by
  cases c with
  | resizeCall w h => simp [step, resize_rectangles]
  | tickCall => simp [step]
  | event ev => simp [step, pointerEvent_rectangles]
  | command cmd =>
    cases cmd with
    | createRectangle x y w h color => simp [step, Engine.execute]
    | startStroke id x y size color => simp [step, Engine.execute]
    | updateStroke id x y =>
      cases hfs : e.findStroke id with
      | none => simp [step, Engine.execute, hfs]
      | some k => simp [step, Engine.execute, hfs, length_listModify]
    | finishStroke id => simp [step, Engine.execute]
    | unknownCommand k => simp [step, Engine.execute]

theorem rectangleCount_cons (c : Call) (calls : List Call) :
    rectangleCount (c :: calls) =
      (match c with
        | .command (.createRectangle _ _ _ _ _) => 1
        | _ => 0) + rectangleCount calls := by
  cases c with
  | command cmd => cases cmd <;> (simp [rectangleCount]; try omega)
  | resizeCall w h => simp [rectangleCount]
  | event ev => simp [rectangleCount]
  | tickCall => simp [rectangleCount]

theorem runState_rectangles_length (calls : List Call) :
    ∀ e : Engine, (runState e calls).rectangles.length =
      e.rectangles.length + rectangleCount calls := by
  induction calls with
  | nil => intro e; simp [runState_nil, rectangleCount]
  | cons c calls ih =>
    intro e
    rw [runState_cons, ih (step e c), step_rectangles_length, rectangleCount_cons]
    omega

theorem rect_ids_of_rectOk {e : Engine} (h : RectOk e) :
    e.rectangles.map (fun r => r.id) =
      (List.range e.rectangles.length).map makeRectangleId := by
  apply List.ext_getElem?
  intro n
  rw [List.getElem?_map, List.getElem?_map]
  by_cases hn : n < e.rectangles.length
  · rw [List.getElem?_range hn]
    cases hr : e.rectangles[n]? with
    | none =>
      rw [List.getElem?_eq_none_iff] at hr
      omega
    | some r => simp [(h n r hr).1]
  · rw [List.getElem?_eq_none (by omega), List.getElem?_eq_none (by simpa using hn)]
    rfl

theorem rect_ids_nodup_of_rectOk {e : Engine} (h : RectOk e) :
    (e.rectangles.map (fun r => r.id)).Nodup := by
  rw [rect_ids_of_rectOk h]
  exact (List.nodup_range _).map makeRectangleId_inj

/-! ### Palette arithmetic -/

theorem absWrap32_of_gt_intMin {p : Int} (h1 : -(2 ^ 31) < p) :
    absWrap32 p = (p.natAbs : Int) := by
  rw [absWrap32]
  by_cases hp : p < 0
  · rw [if_pos hp, wrap32, Int.emod_eq_of_lt (by omega) (by omega)]
    omega
  · rw [if_neg hp]
    omega

theorem colorForPointer_of_gt_intMin {p : Int} (h1 : -(2 ^ 31) < p) :
    colorForPointer p = palette.getD (p.natAbs % 6) "" := by
  rw [colorForPointer, normalized32, absWrap32_of_gt_intMin h1,
    Int.tmod_eq_emod (by omega) (by omega)]
  have ht : (((p.natAbs : Int)) % 6).toNat = p.natAbs % 6 := by omega
  rw [ht]

/-! ### Appending points to an active stroke -/

theorem point_eta (p : StrokePoint) : (⟨p.x, p.y⟩ : StrokePoint) = p := rfl

theorem updates_cons (e : Engine) (id : String) (p : StrokePoint)
    (ps : List StrokePoint) :
    updates e id (p :: ps) = updates (e.execute (.updateStroke id p.x p.y)) id ps :=
  rfl

theorem updates_strokes (id : String) :
    ∀ (ps : List StrokePoint) (e : Engine) (n : Nat) (s : Stroke),
      lookupKey id e.strokeIndex = some n → e.strokes[n]? = some s →
      ∃ u, (updates e id ps).strokes[n]? = some u ∧ u.points = s.points ++ ps ∧
        u.id = s.id ∧ u.name = s.name ∧ u.color = s.color ∧ u.size = s.size := by
  intro ps
  induction ps with
  | nil =>
    intro e n s hl hs
    exact ⟨s, hs, by simp, rfl, rfl, rfl, rfl⟩
  | cons p ps ih =>
    intro e n s hl hs
    obtain ⟨hn, -⟩ := List.getElem?_eq_some_iff.mp hs
    have hfs : e.findStroke id = some n := by
      simp only [Engine.findStroke, hl]
      rw [if_neg (by omega)]
    rw [updates_cons]
    have h1 : (e.execute (.updateStroke id p.x p.y)).strokeIndex = e.strokeIndex := by
      simp [Engine.execute, hfs]
    have h2 : (e.execute (.updateStroke id p.x p.y)).strokes[n]? =
        some { s with points := s.points ++ [⟨p.x, p.y⟩] } := by
      simp only [Engine.execute, hfs]
      rw [getElem?_listModify, if_pos rfl, hs]
      rfl
    obtain ⟨u, hu, hup, hid, hname, hcolor, hsize⟩ :=
      ih (e.execute (.updateStroke id p.x p.y)) n _ (by rw [h1]; exact hl) h2
    refine ⟨u, hu, ?_, hid, hname, hcolor, hsize⟩
    rw [hup]
    simp [point_eta]

theorem step_points_extend (e : Engine) (c : Call) (i : Nat) (s : Stroke)
    (hs : e.strokes[i]? = some s) :
    ∃ s' t, (step e c).strokes[i]? = some s' ∧ s'.points = s.points ++ t ∧
      s'.id = s.id ∧ s'.name = s.name ∧ s'.color = s.color ∧ s'.size = s.size := by
  obtain ⟨hi, -⟩ := List.getElem?_eq_some_iff.mp hs
  cases c with
  | resizeCall w h =>
    exact ⟨s, [], by rw [step, resize_strokes]; simpa using hs, by simp, rfl, rfl, rfl, rfl⟩
  | tickCall => exact ⟨s, [], by simpa using hs, by simp, rfl, rfl, rfl, rfl⟩
  | event ev =>
    exact ⟨s, [], by rw [step, pointerEvent_strokes]; simpa using hs, by simp, rfl, rfl, rfl, rfl⟩
  | command cmd =>
    cases cmd with
    | createRectangle x y w h color =>
      exact ⟨s, [], by simpa using hs, by simp, rfl, rfl, rfl, rfl⟩
    | startStroke id x y size color =>
      refine ⟨s, [], ?_, by simp, rfl, rfl, rfl, rfl⟩
      simp only [step, Engine.execute]
      rw [List.getElem?_append_left hi]
      exact hs
    | updateStroke id x y =>
      cases hfs : e.findStroke id with
      | none => exact ⟨s, [], by simp [step, Engine.execute, hfs, hs], by simp, rfl, rfl, rfl, rfl⟩
      | some k =>
        by_cases hk : k = i
        · subst hk
          refine ⟨{ s with points := s.points ++ [⟨x, y⟩] }, [⟨x, y⟩], ?_, rfl, rfl, rfl, rfl, rfl⟩
          simp only [step, Engine.execute, hfs]
          rw [getElem?_listModify, if_pos rfl, hs]
          rfl
        · refine ⟨s, [], ?_, by simp, rfl, rfl, rfl, rfl⟩
          simp only [step, Engine.execute, hfs]
          rw [getElem?_listModify, if_neg hk]
          exact hs
    | finishStroke id => exact ⟨s, [], by simpa using hs, by simp, rfl, rfl, rfl, rfl⟩
    | unknownCommand k => exact ⟨s, [], by simpa using hs, by simp, rfl, rfl, rfl, rfl⟩

/-! ### Claim theorems -/

/-- Claim C3: silent no-op policy.  When `id` is not in the active-stroke
index, `updateStroke` and `finishStroke` leave the whole engine state
unchanged (no stroke is created, resurrected, or modified); a command of an
unrecognised kind and a pointer event other than `pointerMove` also leave
the state unchanged. -/
theorem c3_silent_noop (e : Engine) (id : String) (x y : Int)
    (kind ekind : String) (h : lookupKey id e.strokeIndex = none) :
    e.execute (.updateStroke id x y) = e ∧
    e.execute (.finishStroke id) = e ∧
    e.execute (.unknownCommand kind) = e ∧
    e.pointerEvent (.otherEvent ekind) = e := by
  refine ⟨?_, ?_, rfl, rfl⟩
  · have hfs : e.findStroke id = none := by simp [Engine.findStroke, h]
    simp [Engine.execute, hfs]
  · show { e with strokeIndex := eraseKey id e.strokeIndex } = e
    rw [eraseKey_of_lookup_none h]

/-- Claim C3 witness: after `startStroke "a"` then `finishStroke "a"`, the id
`"a"` is no longer active, and updating or finishing it again, an unknown
command, and a non-`pointerMove` event are all exact no-ops. -/
theorem c3_silent_noop_witness :
    lookupKey "a" (runState Engine.init
        [Call.command (.startStroke "a" 0 0 1 "red"),
         Call.command (.finishStroke "a")]).strokeIndex = none ∧
    ((runState Engine.init
        [Call.command (.startStroke "a" 0 0 1 "red"),
         Call.command (.finishStroke "a")]).execute (.updateStroke "a" 5 5) =
      runState Engine.init
        [Call.command (.startStroke "a" 0 0 1 "red"),
         Call.command (.finishStroke "a")] ∧
      (runState Engine.init
        [Call.command (.startStroke "a" 0 0 1 "red"),
         Call.command (.finishStroke "a")]).execute (.finishStroke "a") =
      runState Engine.init
        [Call.command (.startStroke "a" 0 0 1 "red"),
         Call.command (.finishStroke "a")] ∧
      (runState Engine.init
        [Call.command (.startStroke "a" 0 0 1 "red"),
         Call.command (.finishStroke "a")]).execute (.unknownCommand "deleteAll") =
      runState Engine.init
        [Call.command (.startStroke "a" 0 0 1 "red"),
         Call.command (.finishStroke "a")] ∧
      (runState Engine.init
        [Call.command (.startStroke "a" 0 0 1 "red"),
         Call.command (.finishStroke "a")]).pointerEvent (.otherEvent "pointerDown") =
      runState Engine.init
        [Call.command (.startStroke "a" 0 0 1 "red"),
         Call.command (.finishStroke "a")]) :=
  ⟨by decide,
   c3_silent_noop
     (runState Engine.init
       [Call.command (.startStroke "a" 0 0 1 "red"),
        Call.command (.finishStroke "a")])
     "a" 5 5 "deleteAll" "pointerDown" (by decide)⟩

/-- Claim C4: the i-th `createRectangle` (1-based) yields a rectangle with
id `rect-i` and name `Rectangle i`, derived from the rectangle count at
insertion time: the rectangle stored at 0-based position `i` carries
`"rect-" ++ natStr (i+1)` and `"Rectangle " ++ natStr (i+1)`, and after any
call sequence the number of stored rectangles equals the number of
`createRectangle` commands executed. -/
theorem c4_rectangle_naming (calls : List Call) (i : Nat) (r : Rectangle)
    (h : (runState Engine.init calls).rectangles[i]? = some r) :
    r.id = "rect-" ++ natStr (i + 1) ∧ r.name = "Rectangle " ++ natStr (i + 1) ∧
    (runState Engine.init calls).rectangles.length = rectangleCount calls := by
  obtain ⟨hid, hname⟩ := (inv_reachable calls).1 i r h
  refine ⟨hid, hname, ?_⟩
  rw [runState_rectangles_length calls Engine.init]
  simp [Engine.init]

/-- Claim C4 witness: two `createRectangle` commands (with a stroke
interleaved) produce the literal ids `rect-1`, `rect-2` and names
`Rectangle 1`, `Rectangle 2`. -/
theorem c4_rectangle_naming_witness :
    (runState Engine.init
        [Call.command (.createRectangle 0 0 2 2 "red"),
         Call.command (.startStroke "s" 0 0 1 "green"),
         Call.command (.createRectangle 1 1 3 3 "blue")]).rectangles[1]? =
      some ⟨"rect-2", "Rectangle 2", 1, 1, 3, 3, "blue"⟩ ∧
    (("rect-2" : String) = "rect-" ++ natStr (1 + 1) ∧
      ("Rectangle 2" : String) = "Rectangle " ++ natStr (1 + 1) ∧
      (runState Engine.init
        [Call.command (.createRectangle 0 0 2 2 "red"),
         Call.command (.startStroke "s" 0 0 1 "green"),
         Call.command (.createRectangle 1 1 3 3 "blue")]).rectangles.length =
        rectangleCount
          [Call.command (.createRectangle 0 0 2 2 "red"),
           Call.command (.startStroke "s" 0 0 1 "green"),
           Call.command (.createRectangle 1 1 3 3 "blue")]) :=
  ⟨by decide,
   c4_rectangle_naming
     [Call.command (.createRectangle 0 0 2 2 "red"),
      Call.command (.startStroke "s" 0 0 1 "green"),
      Call.command (.createRectangle 1 1 3 3 "blue")]
     1 ⟨"rect-2", "Rectangle 2", 1, 1, 3, 3, "blue"⟩ (by decide)⟩

/-- Claim C5: the snapshot's `shapes` list is all rectangles (kind
`"rectangle"`) in insertion order followed by all strokes (kind `"stroke"`,
carrying their full point sequence) in insertion order, for every engine
state — so every rectangle precedes every stroke regardless of creation
interleaving. -/
theorem c5_snapshot_shape_order (e : Engine) :
    (e.tick).shapes = e.rectangles.map rectangleShape ++ e.strokes.map strokeShape ∧
    (e.tick).shapes.length = e.rectangles.length + e.strokes.length ∧
    (∀ i, i < e.rectangles.length →
      (e.tick).shapes[i]? = (e.rectangles[i]?).map rectangleShape) ∧
    (∀ j, j < e.strokes.length →
      (e.tick).shapes[e.rectangles.length + j]? = (e.strokes[j]?).map strokeShape) ∧
    (∀ r, (rectangleShape r).kind = "rectangle") ∧
    (∀ s, (strokeShape s).kind = "stroke" ∧
      strokeShape s = .stroke s.id s.name s.color s.size s.points) := by
  refine ⟨rfl, by simp [Engine.tick], ?_, ?_, fun r => rfl, fun s => ⟨rfl, rfl⟩⟩
  · intro i hi
    show (e.rectangles.map rectangleShape ++ e.strokes.map strokeShape)[i]? = _
    rw [List.getElem?_append_left (by simpa using hi), List.getElem?_map]
  · intro j hj
    show (e.rectangles.map rectangleShape ++
      e.strokes.map strokeShape)[e.rectangles.length + j]? = _
    rw [List.getElem?_append_right (by simp)]
    simp [Nat.add_sub_cancel_left]

/-- Claim C5 witness: with one stroke created before one rectangle, the
snapshot still lists the rectangle shape first, then the stroke shape. -/
theorem c5_snapshot_shape_order_witness :
    (0 : Nat) < (runState Engine.init
        [Call.command (.startStroke "s" 7 8 1 "green"),
         Call.command (.createRectangle 0 0 2 2 "red")]).rectangles.length ∧
    ((runState Engine.init
        [Call.command (.startStroke "s" 7 8 1 "green"),
         Call.command (.createRectangle 0 0 2 2 "red")]).tick).shapes[0]? =
      ((runState Engine.init
        [Call.command (.startStroke "s" 7 8 1 "green"),
         Call.command (.createRectangle 0 0 2 2 "red")]).rectangles[0]?).map
        rectangleShape ∧
    ((runState Engine.init
        [Call.command (.startStroke "s" 7 8 1 "green"),
         Call.command (.createRectangle 0 0 2 2 "red")]).tick).shapes =
      [rectangleShape ⟨"rect-1", "Rectangle 1", 0, 0, 2, 2, "red"⟩,
       strokeShape ⟨"s", "Trace 1", "green", 1, [⟨7, 8⟩]⟩] :=
  ⟨by decide,
   (c5_snapshot_shape_order
     (runState Engine.init
       [Call.command (.startStroke "s" 7 8 1 "green"),
        Call.command (.createRectangle 0 0 2 2 "red")])).2.2.1 0 (by decide),
   by decide⟩

/-- Claim C7: `tick` is read-only and current.  Inserting a `tick` call
anywhere in a call sequence does not change the final engine state, and the
snapshot it returns is exactly the snapshot of the state produced by every
mutation before it — so consecutive `tick` calls return equal snapshots. -/
theorem c7_tick_readonly_current (e : Engine) (pre post : List Call) :
    run e (pre ++ Call.tickCall :: post) =
      ((run e (pre ++ post)).1,
        (run e pre).2 ++
          Engine.tick (runState e pre) :: (run (runState e pre) post).2) := by
  rw [run_append e pre (Call.tickCall :: post), run_append e pre post]
  have hstep : run (runState e pre) (Call.tickCall :: post) =
      ((run (runState e pre) post).1,
        (runState e pre).tick :: (run (runState e pre) post).2) := rfl
  rw [hstep]

/-- Claim C8: `resize` stores the dimensions with each negative input
clamped to 0 independently, changes nothing else, and in particular
`resize(-5, 100)` stores width 0 and height 100. -/
theorem c8_resize_clamps (e : Engine) (w h : Int) :
    (e.resize w h).width = max w 0 ∧ (e.resize w h).height = max h 0 ∧
    (e.resize w h).rectangles = e.rectangles ∧
    (e.resize w h).strokes = e.strokes ∧
    (e.resize w h).strokeIndex = e.strokeIndex ∧
    (e.resize w h).presences = e.presences ∧
    (e.resize (-5) 100).width = 0 ∧ (e.resize (-5) 100).height = 100 := by
  refine ⟨?_, ?_, resize_rectangles e w h, resize_strokes e w h,
    resize_strokeIndex e w h, resize_presences e w h, ?_, ?_⟩
  · rw [resize_width]; split <;> omega
  · rw [resize_height]; split <;> omega
  · rw [resize_width]; norm_num
  · rw [resize_height]; norm_num

/-- Claim C9: active-stroke index consistency on every reachable state —
each index entry `(id, k)` has `k` in bounds with the stroke at position `k`
bearing exactly that id, so `findStroke` returns the designated position and
its defensive bounds check never fires. -/
theorem c9_stroke_index_consistent (calls : List Call) (id : String) (k : Nat)
    (h : lookupKey id (runState Engine.init calls).strokeIndex = some k) :
    k < (runState Engine.init calls).strokes.length ∧
    (∃ s, (runState Engine.init calls).strokes[k]? = some s ∧ s.id = id) ∧
    (runState Engine.init calls).findStroke id = some k := by
  obtain ⟨s, hs, hsid⟩ := (inv_reachable calls).2.1 id k h
  obtain ⟨hk, -⟩ := List.getElem?_eq_some_iff.mp hs
  refine ⟨hk, ⟨s, hs, hsid⟩, ?_⟩
  simp only [Engine.findStroke, h]
  rw [if_neg (by omega)]

/-- Claim C9 witness: after starting strokes `"a"` and `"b"` and finishing
`"a"`, the index entry for `"b"` designates position 1, which holds the
stroke with id `"b"`, and `findStroke` returns it. -/
theorem c9_stroke_index_consistent_witness :
    lookupKey "b" (runState Engine.init
        [Call.command (.startStroke "a" 0 0 1 "red"),
         Call.command (.startStroke "b" 2 2 1 "blue"),
         Call.command (.finishStroke "a")]).strokeIndex = some 1 ∧
    (1 < (runState Engine.init
        [Call.command (.startStroke "a" 0 0 1 "red"),
         Call.command (.startStroke "b" 2 2 1 "blue"),
         Call.command (.finishStroke "a")]).strokes.length ∧
      (∃ s, (runState Engine.init
        [Call.command (.startStroke "a" 0 0 1 "red"),
         Call.command (.startStroke "b" 2 2 1 "blue"),
         Call.command (.finishStroke "a")]).strokes[1]? = some s ∧ s.id = "b") ∧
      (runState Engine.init
        [Call.command (.startStroke "a" 0 0 1 "red"),
         Call.command (.startStroke "b" 2 2 1 "blue"),
         Call.command (.finishStroke "a")]).findStroke "b" = some 1) :=
  ⟨by decide,
   c9_stroke_index_consistent
     [Call.command (.startStroke "a" 0 0 1 "red"),
      Call.command (.startStroke "b" 2 2 1 "blue"),
      Call.command (.finishStroke "a")]
     "b" 1 (by decide)⟩

/-- Claim C10 (refuted at the failing input): for `pointerId = -2^31`,
`std::abs` wraps to `-2^31` (still negative) and C++ truncating `%` yields
`-2`, not a value in `[0, 5]` — so `palette[normalized]` reads out of
bounds there, contradicting the claimed total in-bounds property. -/
theorem c10_palette_index_out_of_bounds :
    normalized32 (-(2 ^ 31)) = -2 ∧ absWrap32 (-(2 ^ 31)) = -(2 ^ 31) ∧
    ¬ (0 ≤ normalized32 (-(2 ^ 31)) ∧ normalized32 (-(2 ^ 31)) < 6) := by
  decide

/-- Claim C1 counterexample: `startStroke` with an id already in the stroke
collection appends a second stroke with the same id, so stroke ids are not
unique for every command sequence — two `startStroke "a"` calls leave two
strokes with id `"a"`. -/
theorem c1_duplicate_stroke_id_counterexample :
    (runState Engine.init
        [Call.command (.startStroke "a" 0 0 1 "red"),
         Call.command (.startStroke "a" 1 1 1 "blue")]).strokes.map
        (fun s => s.id) = ["a", "a"] ∧
    ¬ ((runState Engine.init
        [Call.command (.startStroke "a" 0 0 1 "red"),
         Call.command (.startStroke "a" 1 1 1 "blue")]).strokes.map
        (fun s => s.id)).Nodup := by
  decide

/-- Claim C1 (amended): rectangle ids are always pairwise distinct, and
stroke ids are pairwise distinct for every command sequence in which no two
`startStroke` commands carry the same id (the spec's caller precondition
that id reuse is invalid input). -/
theorem c1_stroke_and_rectangle_ids_unique (calls : List Call)
    (h : (strokeIds calls).Nodup) :
    ((runState Engine.init calls).strokes.map (fun s => s.id)).Nodup ∧
    ((runState Engine.init calls).rectangles.map (fun r => r.id)).Nodup := by
  constructor
  · rw [runState_strokes_map_id calls Engine.init]
    simpa [Engine.init] using h
  · exact rect_ids_nodup_of_rectOk (inv_reachable calls).1

/-- Claim C1 witness: distinct `startStroke` ids and two rectangles give
pairwise-distinct stroke ids and rectangle ids. -/
theorem c1_stroke_and_rectangle_ids_unique_witness :
    (strokeIds [Call.command (.startStroke "a" 0 0 1 "red"),
      Call.command (.createRectangle 0 0 2 2 "red"),
      Call.command (.startStroke "b" 1 1 1 "blue"),
      Call.command (.createRectangle 1 1 3 3 "blue")]).Nodup ∧
    (((runState Engine.init
        [Call.command (.startStroke "a" 0 0 1 "red"),
         Call.command (.createRectangle 0 0 2 2 "red"),
         Call.command (.startStroke "b" 1 1 1 "blue"),
         Call.command (.createRectangle 1 1 3 3 "blue")]).strokes.map
        (fun s => s.id)).Nodup ∧
      ((runState Engine.init
        [Call.command (.startStroke "a" 0 0 1 "red"),
         Call.command (.createRectangle 0 0 2 2 "red"),
         Call.command (.startStroke "b" 1 1 1 "blue"),
         Call.command (.createRectangle 1 1 3 3 "blue")]).rectangles.map
        (fun r => r.id)).Nodup) :=
  ⟨by decide,
   c1_stroke_and_rectangle_ids_unique
     [Call.command (.startStroke "a" 0 0 1 "red"),
      Call.command (.createRectangle 0 0 2 2 "red"),
      Call.command (.startStroke "b" 1 1 1 "blue"),
      Call.command (.createRectangle 1 1 3 3 "blue")]
     (by decide)⟩

/-- Claim C2: stroke point sequences are append-only and order-preserving.
(1) No engine operation reorders, truncates, or modifies the existing
points of any stored stroke — it can only append, and it changes no other
stroke field.  (2) `startStroke` creates a stroke whose point sequence is
exactly the single point `{x, y}` (stored at the end of the collection).
(3) After `startStroke` followed by the `updateStroke` calls for the points
`ps` on the same (active) id, that stroke's points are exactly
`{x, y} :: ps` in call order. -/
theorem c2_points_append_only (e : Engine) (c : Call) (i : Nat) (s : Stroke)
    (id : String) (x y size : Int) (color : String) (ps : List StrokePoint)
    (hs : e.strokes[i]? = some s) :
    (∃ s' t, (step e c).strokes[i]? = some s' ∧ s'.points = s.points ++ t ∧
      s'.id = s.id ∧ s'.name = s.name ∧ s'.color = s.color ∧ s'.size = s.size) ∧
    ((e.execute (.startStroke id x y size color)).strokes[e.strokes.length]? =
      some ⟨id, makeStrokeName e.strokes.length, color, size, [⟨x, y⟩]⟩) ∧
    (∃ u, (updates (e.execute (.startStroke id x y size color)) id ps).strokes[e.strokes.length]? = some u ∧
      u.points = ⟨x, y⟩ :: ps ∧ u.id = id ∧ u.color = color ∧ u.size = size) := by
  refine ⟨step_points_extend e c i s hs, ?_, ?_⟩
  · simp only [Engine.execute]
    rw [List.getElem?_append_right (Nat.le_refl _), Nat.sub_self]
    rfl
  · have h1 : lookupKey id
        (e.execute (.startStroke id x y size color)).strokeIndex =
        some e.strokes.length := lookupKey_setKey_self id e.strokes.length _
    have h2 : (e.execute (.startStroke id x y size color)).strokes[e.strokes.length]? =
        some (Engine.makeStroke id (makeStrokeName e.strokes.length) x y size color) := by
      simp only [Engine.execute]
      rw [List.getElem?_append_right (Nat.le_refl _), Nat.sub_self]
      rfl
    obtain ⟨u, hu, hup, huid, -, huc, hus⟩ :=
      updates_strokes id ps _ e.strokes.length _ h1 h2
    refine ⟨u, hu, ?_, huid, huc, hus⟩
    rw [hup]
    rfl

/-- Claim C2 witness: starting stroke `"b"` at `(2, 3)` on an engine that
already holds one stroke, then appending `(7, 8)` via `updateStroke`, keeps
the existing stroke intact and yields points `[(2,3), (7,8)]` on `"b"`. -/
theorem c2_points_append_only_witness :
    (runState Engine.init [Call.command (.startStroke "a" 0 0 1 "red")]).strokes[0]? = some ⟨"a", "Trace 1", "red", 1, [⟨0, 0⟩]⟩ ∧
    ((∃ s' t, (step (runState Engine.init [Call.command (.startStroke "a" 0 0 1 "red")]) (Call.command (.updateStroke "a" 5 5))).strokes[0]? = some s' ∧
        s'.points = [(⟨0, 0⟩ : StrokePoint)] ++ t ∧ s'.id = "a" ∧
        s'.name = "Trace 1" ∧ s'.color = "red" ∧ s'.size = 1) ∧
      ((runState Engine.init [Call.command (.startStroke "a" 0 0 1 "red")]).execute (.startStroke "b" 2 3 4 "blue")).strokes[1]? = some ⟨"b", "Trace 2", "blue", 4, [⟨2, 3⟩]⟩ ∧
      (∃ u, (updates ((runState Engine.init [Call.command (.startStroke "a" 0 0 1 "red")]).execute (.startStroke "b" 2 3 4 "blue")) "b" [⟨7, 8⟩]).strokes[1]? = some u ∧
        u.points = [(⟨2, 3⟩ : StrokePoint), ⟨7, 8⟩] ∧ u.id = "b" ∧
        u.color = "blue" ∧ u.size = 4)) :=
  ⟨by decide,
   c2_points_append_only
     (runState Engine.init [Call.command (.startStroke "a" 0 0 1 "red")])
     (Call.command (.updateStroke "a" 5 5)) 0
     ⟨"a", "Trace 1", "red", 1, [⟨0, 0⟩]⟩
     "b" 2 3 4 "blue" [⟨7, 8⟩] (by decide)⟩

/-- Claim C6: presence semantics.  On every reachable state the presence
map holds at most one entry per pointer id; a `pointerMove` for an unseen
pointer id appends exactly one entry whose color is the palette color of the
pointer id; a `pointerMove` for a seen pointer id rewrites only that entry's
`x`/`y` in place, leaving its color (and every other entry) unchanged; and
for every 32-bit pointer id above `-2^31` the assigned color is
`palette[abs(pointerId) mod 6]`. -/
theorem c6_presence_semantics (calls : List Call) (pid x y : Int)
    (p : Presence) :
    ((runState Engine.init calls).presences.map (fun q => q.1)).Nodup ∧
    (lookupKey pid (runState Engine.init calls).presences = none →
      ((runState Engine.init calls).pointerEvent (.pointerMove pid x y)).presences =
        (runState Engine.init calls).presences ++
          [(pid, ⟨intStr pid, colorForPointer pid, x, y⟩)]) ∧
    (lookupKey pid (runState Engine.init calls).presences = some p →
      ((runState Engine.init calls).pointerEvent (.pointerMove pid x y)).presences =
        (runState Engine.init calls).presences.map
          (fun q => if q.1 = pid then (q.1, ⟨q.2.id, q.2.color, x, y⟩) else q)) ∧
    (-(2 ^ 31) < pid → pid < 2 ^ 31 →
      colorForPointer pid = palette.getD (pid.natAbs % 6) "") := by
  refine ⟨(inv_reachable calls).2.2, ?_, ?_, fun h1 _ => colorForPointer_of_gt_intMin h1⟩
  · intro h
    simp [Engine.pointerEvent, Engine.updatePresence, h]
  · intro h
    simp [Engine.pointerEvent, Engine.updatePresence, h]

/-- Claim C6 witness: pointer 3 moves twice — the first move creates the
single entry with the palette color of 3, the second updates only its
coordinates; keys stay duplicate-free and the color formula holds for 3. -/
theorem c6_presence_semantics_witness :
    lookupKey 3 (runState Engine.init
        [Call.event (.pointerMove 3 10 20)]).presences =
      some ⟨"3", colorForPointer 3, 10, 20⟩ ∧
    (((runState Engine.init [Call.event (.pointerMove 3 10 20)]).presences.map
        (fun q => q.1)).Nodup ∧
      ((runState Engine.init [Call.event (.pointerMove 3 10 20)]).pointerEvent
          (.pointerMove 3 30 40)).presences =
        (runState Engine.init [Call.event (.pointerMove 3 10 20)]).presences.map
          (fun q => if q.1 = 3 then (q.1, ⟨q.2.id, q.2.color, 30, 40⟩) else q) ∧
      (-(2 ^ 31) < (3 : Int) → (3 : Int) < 2 ^ 31 →
        colorForPointer 3 = palette.getD ((3 : Int).natAbs % 6) "")) :=
  ⟨by decide,
   ((c6_presence_semantics [Call.event (.pointerMove 3 10 20)] 3 30 40
       ⟨"3", colorForPointer 3, 10, 20⟩)).1,
   ((c6_presence_semantics [Call.event (.pointerMove 3 10 20)] 3 30 40
       ⟨"3", colorForPointer 3, 10, 20⟩)).2.2.1 (by decide),
   ((c6_presence_semantics [Call.event (.pointerMove 3 10 20)] 3 30 40
       ⟨"3", colorForPointer 3, 10, 20⟩)).2.2.2⟩

end MiniDraw
